import Mathlib

/-!
Verification of the task-manager core (script.js and its variants).

The definitions below are a shallow embedding of the TASKS-module functions:
task records, the validation predicates (translated from the regular
expressions), duplicate detection, add/update/remove, filtering and the
stable due-date sort, the availableCategories derivations (both variants),
getTimeRemaining, and the form-submission control flow of handleFormSubmit.

Modelling conventions:
* machine numbers are `Int`/`Nat` (all arithmetic in the source is exact
  integer arithmetic on millisecond timestamps);
* `Date.now()` is an explicit clock argument `now : Int` to `addTask`;
* `dueDate` is modelled as the parsed time value (an `Int` of milliseconds),
  since every comparison in the source goes through `new Date(...)`;
* `editingTaskId : Option Int` models the `number | null` variable, and
  `jsTruthyId` models JavaScript truthiness of that value (`null` and `0`
  are falsy);
* `Array.prototype.sort` with a consistent comparator is (per ES2019)
  a stable sort, modelled by the stable insertion sort `sortLe`;
* `new Set(xs)` followed by `Array.from(...).sort()` is modelled by
  `List.dedup` followed by `sortLe strLe` (the iteration order of the set
  is irrelevant after sorting).
-/

namespace TaskManager

/-- The task record pushed by `addTask` in script.js. -/
structure Task where
  id : Int
  name : String
  category : String
  priority : String
  dueDate : Int
  description : String
  completed : Bool
deriving DecidableEq

/-- The set matched by `\s` in a JavaScript regular expression. -/
def jsWhitespace (c : Char) : Bool :=
  c = ' ' || c = '\t' || c = '\n' || c = '\r' || c.toNat = 11 || c.toNat = 12 ||
  c.toNat = 0xa0 || c.toNat = 0x1680 ||
  (0x2000 ≤ c.toNat && c.toNat ≤ 0x200a) ||
  c.toNat = 0x2028 || c.toNat = 0x2029 || c.toNat = 0x202f ||
  c.toNat = 0x205f || c.toNat = 0x3000 || c.toNat = 0xfeff

/-- `[a-zA-Z]`. -/
def isAsciiLetter (c : Char) : Bool :=
  (65 ≤ c.toNat && c.toNat ≤ 90) || (97 ≤ c.toNat && c.toNat ≤ 122)

/-- `[0-9]`. -/
def isAsciiDigit (c : Char) : Bool :=
  48 ≤ c.toNat && c.toNat ≤ 57

/-- One character of the name character class `[a-zA-Z0-9\s]`. -/
def nameCharOk (c : Char) : Bool :=
  isAsciiLetter c || isAsciiDigit c || jsWhitespace c

/-- One character of the description class; 39 is the apostrophe. -/
def descCharOk (c : Char) : Bool :=
  nameCharOk c || c = '.' || c = ',' || c = '!' || c = '?' || c = '-' ||
  c.toNat = 39

/-- `validateTaskName`: the regex test for the anchored pattern
`[a-zA-Z0-9\s]+` — at least one character, all from the class. -/
def validateTaskName (taskName : String) : Bool :=
  !taskName.isEmpty && taskName.data.all nameCharOk

/-- `validateDescription`: the regex test for the anchored pattern of
letters, digits, whitespace and basic punctuation, again with `+`
(at least one character). -/
def validateDescription (description : String) : Bool :=
  !description.isEmpty && description.data.all descCharOk

/-- `String.prototype.toLowerCase` restricted to the characters the
application stores (the validated names are ASCII, as are the default
categories): each character is lowered by `Char.toLower` (A–Z ↦ a–z,
everything else fixed). -/
def jsToLower (s : String) : String := ⟨s.data.map Char.toLower⟩

/-- `isTaskNameDuplicate(taskName, excludeTaskId)`: case-insensitive name
match against every task whose id differs from `excludeTaskId`
(`task.id !== excludeTaskId`; a `null` exclusion excludes nothing). -/
def isTaskNameDuplicate (tasks : List Task) (taskName : String)
    (excludeTaskId : Option Int) : Bool :=
  tasks.any (fun t =>
    jsToLower t.name == jsToLower taskName && some t.id != excludeTaskId)

/-- `addTask`: pushes a fresh record whose id is the current clock reading
(`Date.now()`), with `completed = false`. -/
def addTask (tasks : List Task) (now : Int) (name category priority : String)
    (dueDate : Int) (description : String) : List Task :=
  tasks ++ [⟨now, name, category, priority, dueDate, description, false⟩]

/-- `updateTask`: `findIndex` + in-place replacement — the first task whose
id matches is replaced, keeping its `id` and `completed`; no match means
no change. -/
def updateTask (tasks : List Task) (taskId : Int) (name category priority : String)
    (dueDate : Int) (description : String) : List Task :=
  match tasks with
  | [] => []
  | t :: ts =>
    if t.id = taskId then
      ⟨t.id, name, category, priority, dueDate, description, t.completed⟩ :: ts
    else
      t :: updateTask ts taskId name category priority dueDate description

/-- `removeTask`: keep every task whose id differs. -/
def removeTask (tasks : List Task) (taskId : Int) : List Task :=
  tasks.filter (fun t => t.id != taskId)

/-- `getTaskById`: `Array.prototype.find`. -/
def getTaskById (tasks : List Task) (taskId : Int) : Option Task :=
  tasks.find? (fun t => t.id == taskId)

/-- Stable insertion into a list: `x` goes in front of the first element
`y` with `le x y`; with a total `le` this is the insertion step of a
stable sort. -/
def insertLe {α : Type} (le : α → α → Bool) (x : α) : List α → List α
  | [] => [x]
  | y :: ys => if le x y then x :: y :: ys else y :: insertLe le x ys

/-- Stable insertion sort; the model of `Array.prototype.sort` with a
consistent comparator `cmp` where `le a b` means `cmp(a,b) <= 0`
(ES2019 requires the sort to be stable). -/
def sortLe {α : Type} (le : α → α → Bool) : List α → List α
  | [] => []
  | x :: xs => insertLe le x (sortLe le xs)

/-- The due-date comparator of `getFilteredTasks`:
`sortAscending ? dateA - dateB : dateB - dateA`, read as a total preorder. -/
def dueLe (sortAscending : Bool) (a b : Task) : Bool :=
  if sortAscending then decide (a.dueDate ≤ b.dueDate)
  else decide (b.dueDate ≤ a.dueDate)

/-- `getFilteredTasks(categoryFilter)` (both script.js variants are
identical): copy or filter — the category test is `===`, exact string
equality — then sort the fresh array by due date per `sortAscending`. -/
def getFilteredTasks (tasks : List Task) (categoryFilter : String)
    (sortAscending : Bool) : List Task :=
  sortLe (dueLe sortAscending)
    (if categoryFilter = "all" then tasks
     else tasks.filter (fun t => t.category == categoryFilter))

/-- Lexicographic comparison of character lists by code point; the order
used by comparator-less `Array.prototype.sort` on the (ASCII) category
strings of this application. -/
def charListLe : List Char → List Char → Bool
  | [], _ => true
  | _ :: _, [] => false
  | a :: as, b :: bs =>
    if a.toNat < b.toNat then true
    else if b.toNat < a.toNat then false
    else charListLe as bs

/-- String order for the default sort. -/
def strLe (a b : String) : Bool := charListLe a.data b.data

/-- The fixed default category set. -/
def defaultCategories : List String := ["Work", "Personal", "Shopping", "Fitness"]

/-- `getAvailableCategories` (first variant, script.js lines 55–63):
lower-case the defaults and every task category, deduplicate via a `Set`,
sort. -/
def getAvailableCategories (tasks : List Task) : List String :=
  let normalizedDefaults := defaultCategories.map jsToLower
  let taskCategories := tasks.map (fun t => jsToLower t.category)
  sortLe strLe ((normalizedDefaults ++ taskCategories).dedup)

/-- `getAvailableCategories` (second variant, script.js lines 767–772):
the same union but with NO lower-casing anywhere. -/
def getAvailableCategories2 (tasks : List Task) : List String :=
  let taskCategories := (tasks.map (fun t => t.category)).dedup
  sortLe strLe ((defaultCategories ++ taskCategories).dedup)

/-- Milliseconds per minute (`1000 * 60`). -/
def msPerMinute : Nat := 1000 * 60

/-- Milliseconds per hour (`1000 * 60 * 60`). -/
def msPerHour : Nat := 1000 * 60 * 60

/-- Milliseconds per day (`1000 * 60 * 60 * 24`). -/
def msPerDay : Nat := 1000 * 60 * 60 * 24

/-- `getTimeRemaining(dueDate)`: `diff = dueDate - now` in milliseconds;
"Overdue" for `diff <= 0`, otherwise floor-division decomposition into
days, hours, minutes, and the three-way format of the template literals. -/
def getTimeRemaining (dueDate now : Int) : String :=
  let diff := dueDate - now
  if diff ≤ 0 then "Overdue"
  else
    let d := diff.toNat
    let days := d / msPerDay
    let hours := (d % msPerDay) / msPerHour
    let minutes := (d % msPerHour) / msPerMinute
    if 0 < days then
      Nat.repr days ++ "d " ++ Nat.repr hours ++ "h " ++ Nat.repr minutes ++ "m"
    else if 0 < hours then
      Nat.repr hours ++ "h " ++ Nat.repr minutes ++ "m"
    else
      Nat.repr minutes ++ "m"

/-- The four validation failures surfaced by `handleFormSubmit`. -/
inductive SubmitError where
  | emptyName
  | patternName
  | duplicateName
  | descriptionPattern
deriving DecidableEq

/-- Result of one form submission: the error shown (at most one — the
handler returns at the first failing check), the task collection after
the call, and the editing id after the call. -/
structure SubmitOutcome where
  error : Option SubmitError
  tasks : List Task
  editingTaskId : Option Int
deriving DecidableEq

/-- JavaScript truthiness of the `editingTaskId` variable
(`number | null`): `null` and `0` are falsy. -/
def jsTruthyId : Option Int → Bool
  | none => false
  | some i => i != 0

/-- `handleFormSubmit`: the early-return validation chain
(empty name → name pattern → duplicate → description pattern), then
`updateTask` when `editingTaskId` is truthy else `addTask`, then
`resetEditState` (editing id back to `null`). The form values arrive
already trimmed (`.trim()` in `getFormValues`). -/
def handleFormSubmit (tasks : List Task) (editingTaskId : Option Int) (now : Int)
    (taskName taskCategory taskPriority : String) (taskDueDate : Int)
    (taskDesc : String) : SubmitOutcome :=
  if taskName = "" then ⟨some .emptyName, tasks, editingTaskId⟩
  else if validateTaskName taskName = false then
    ⟨some .patternName, tasks, editingTaskId⟩
  else if isTaskNameDuplicate tasks taskName editingTaskId = true then
    ⟨some .duplicateName, tasks, editingTaskId⟩
  else if taskDesc ≠ "" ∧ validateDescription taskDesc = false then
    ⟨some .descriptionPattern, tasks, editingTaskId⟩
  else if jsTruthyId editingTaskId then
    ⟨none,
     updateTask tasks (editingTaskId.getD 0) taskName taskCategory taskPriority
       taskDueDate taskDesc,
     none⟩
  else
    ⟨none,
     addTask tasks now taskName taskCategory taskPriority taskDueDate taskDesc,
     none⟩

/-- No two tasks have case-insensitively equal names. -/
def NamesUnique (tasks : List Task) : Prop :=
  tasks.Pairwise (fun a b => jsToLower a.name ≠ jsToLower b.name)

/-- Task ids are pairwise distinct. -/
def IdsUnique (tasks : List Task) : Prop :=
  (tasks.map Task.id).Nodup

/-- Stores reachable from the empty store by submissions through the
validated path and by deletions. Each creation reads the clock
(`Date.now()`); the hypothesis `hfresh` records that the reading differs
from every id currently in the store (true whenever successive clock
readings are distinct), and `heid` records that the session never edits
the falsy id `0` (ids are positive timestamps). -/
inductive ValidatedReach : List Task → Prop
  | init : ValidatedReach []
  | submit (tasks : List Task) (editingTaskId : Option Int) (now : Int)
      (name category priority : String) (dueDate : Int) (description : String)
      (hfresh : ∀ t ∈ tasks, t.id ≠ now)
      (heid : editingTaskId ≠ some 0)
      (h : ValidatedReach tasks) :
      ValidatedReach (handleFormSubmit tasks editingTaskId now name category
        priority dueDate description).tasks
  | remove (tasks : List Task) (taskId : Int) (h : ValidatedReach tasks) :
      ValidatedReach (removeTask tasks taskId)

/-- Stores reachable by raw `addTask`/`removeTask` calls, together with the
history of every clock reading handed to `addTask` (every id ever
assigned, deleted tasks included). `hfresh` is the distinct-clock
assumption: the new reading was never produced before. -/
inductive AddRemReach : List Int → List Task → Prop
  | init : AddRemReach [] []
  | add (hist : List Int) (tasks : List Task) (now : Int)
      (name category priority : String) (dueDate : Int) (description : String)
      (hfresh : now ∉ hist) (h : AddRemReach hist tasks) :
      AddRemReach (hist ++ [now])
        (addTask tasks now name category priority dueDate description)
  | remove (hist : List Int) (tasks : List Task) (taskId : Int)
      (h : AddRemReach hist tasks) : AddRemReach hist (removeTask tasks taskId)

/-- A heap of JavaScript arrays, to make aliasing observable: the store
variable `tasks` is a reference into the heap, `[...tasks]` and
`Array.prototype.filter` allocate fresh arrays, and
`Array.prototype.sort` mutates its receiver in place. -/
structure JsHeap where
  arrays : List (List Task)

/-- Dereference. -/
def JsHeap.get (h : JsHeap) (r : Nat) : List Task := h.arrays.getD r []

/-- In-place overwrite of one array. -/
def JsHeap.set (h : JsHeap) (r : Nat) (a : List Task) : JsHeap :=
  ⟨h.arrays.set r a⟩

/-- Allocation of a fresh array. -/
def JsHeap.alloc (h : JsHeap) (a : List Task) : JsHeap × Nat :=
  (⟨h.arrays ++ [a]⟩, h.arrays.length)

/-- `getFilteredTasks` over the heap: `[...tasks]` (for "all") and
`tasks.filter(...)` both allocate a fresh array, which is then sorted in
place; the function returns the reference to that fresh array. -/
def getFilteredTasksRef (h : JsHeap) (storeRef : Nat) (categoryFilter : String)
    (sortAscending : Bool) : JsHeap × Nat :=
  let base := h.get storeRef
  let alloc1 := h.alloc
    (if categoryFilter = "all" then base
     else base.filter (fun t => t.category == categoryFilter))
  let h1 := alloc1.1
  let r := alloc1.2
  (h1.set r (sortLe (dueLe sortAscending) (h1.get r)), r)

/-- Step 1 of a concrete submission trace: a creation with the clock
(`Date.now()`) reading 7. -/
def clashStep1 : SubmitOutcome := handleFormSubmit [] none 7 "x" "work" "low" 0 ""

/-- Step 2: a second creation during the same millisecond — the clock
reads 7 again. -/
def clashStep2 : SubmitOutcome :=
  handleFormSubmit clashStep1.tasks none 7 "y" "work" "low" 0 ""

/-- Step 3: the user clicks Edit on id 7 (which exists) and saves the
name "Y". -/
def clashStep3 : SubmitOutcome :=
  handleFormSubmit clashStep2.tasks (some 7) 9 "Y" "work" "low" 0 ""

/-- The filtering part of `displayTasks` in the part_001 variant (lines
207–225): `const filteredTasks = sel === 'all' ? tasks : tasks.filter(...)`
— note the MISSING spread: for "all" the local is an alias of the store —
followed by an in-place ascending sort of that array. -/
def displayTasksP1 (h : JsHeap) (storeRef : Nat)
    (selectedCategory : String) : JsHeap × Nat :=
  let fr := if selectedCategory = "all" then (h, storeRef)
            else h.alloc
              ((h.get storeRef).filter (fun t => t.category == selectedCategory))
  let h1 := fr.1
  let r := fr.2
  (h1.set r (sortLe (dueLe true) (h1.get r)), r)

/-- A concrete one-array heap whose store holds two tasks out of due-date
order. -/
def p1Heap : JsHeap :=
  ⟨[[⟨1, "a", "c", "low", 2, "", false⟩, ⟨2, "b", "c", "low", 1, "", false⟩]]⟩

end TaskManager

namespace TaskManager

/-! Basic facts about the stable insertion sort. -/

theorem insertLe_perm {α : Type} (le : α → α → Bool) (x : α) (l : List α) :
    (insertLe le x l).Perm (x :: l) := by
  induction l with
  | nil => simp [insertLe]
  | cons y ys ih =>
    by_cases hxy : le x y = true
    · simp [insertLe, hxy]
    · simpa [insertLe, hxy] using (ih.cons y).trans (List.Perm.swap x y ys)

theorem sortLe_perm {α : Type} (le : α → α → Bool) (l : List α) :
    (sortLe le l).Perm l := by
  induction l with
  | nil => simp [sortLe]
  | cons x xs ih =>
    exact (insertLe_perm le x (sortLe le xs)).trans (ih.cons x)

theorem mem_sortLe {α : Type} (le : α → α → Bool) (l : List α) (a : α) :
    a ∈ sortLe le l ↔ a ∈ l :=
  (sortLe_perm le l).mem_iff

theorem pairwise_insertLe {α : Type} (le : α → α → Bool)
    (htot : ∀ a b, le a b = true ∨ le b a = true)
    (htrans : ∀ a b c, le a b = true → le b c = true → le a c = true)
    (x : α) {l : List α} (h : l.Pairwise (fun a b => le a b = true)) :
    (insertLe le x l).Pairwise (fun a b => le a b = true) := by
  induction l with
  | nil => simp [insertLe]
  | cons y ys ih =>
    rcases List.pairwise_cons.mp h with ⟨hy, hys⟩
    by_cases hxy : le x y = true
    · simp only [insertLe, if_pos hxy]
      refine List.pairwise_cons.mpr ⟨?_, h⟩
      intro b hb
      rcases List.mem_cons.mp hb with rfl | hb
      · exact hxy
      · exact htrans x y b hxy (hy b hb)
    · simp only [insertLe, if_neg hxy]
      refine List.pairwise_cons.mpr ⟨?_, ih hys⟩
      intro b hb
      rcases List.mem_cons.mp ((insertLe_perm le x ys).mem_iff.mp hb) with hbx | hb
      · rcases htot x y with h1 | h2
        · exact absurd h1 hxy
        · exact hbx.symm ▸ h2
      · exact hy b hb

theorem pairwise_sortLe {α : Type} (le : α → α → Bool)
    (htot : ∀ a b, le a b = true ∨ le b a = true)
    (htrans : ∀ a b c, le a b = true → le b c = true → le a c = true)
    (l : List α) :
    (sortLe le l).Pairwise (fun a b => le a b = true) := by
  induction l with
  | nil => simp [sortLe]
  | cons x xs ih => exact pairwise_insertLe le htot htrans x ih

theorem filter_insertLe_pos {α : Type} (le : α → α → Bool) (p : α → Bool) (x : α)
    (hx : p x = true) (hle : ∀ b, p b = true → le x b = true) (l : List α) :
    (insertLe le x l).filter p = x :: l.filter p := by
  induction l with
  | nil => simp [insertLe, hx]
  | cons y ys ih =>
    by_cases hxy : le x y = true
    · simp [insertLe, hxy, List.filter_cons, hx]
    · have hpy : p y = false := by
        cases hpy : p y
        · rfl
        · exact absurd (hle y hpy) hxy
      simp [insertLe, hxy, List.filter_cons, hpy, ih]

theorem filter_insertLe_neg {α : Type} (le : α → α → Bool) (p : α → Bool) (x : α)
    (hx : p x = false) (l : List α) :
    (insertLe le x l).filter p = l.filter p := by
  induction l with
  | nil => simp [insertLe, hx]
  | cons y ys ih =>
    by_cases hxy : le x y = true
    · simp [insertLe, hxy, List.filter_cons, hx]
    · simp [insertLe, hxy, List.filter_cons, ih]

/-- Stability of the sort, phrased through filters: on any class of
mutually `le`-equivalent elements the sort is the identity on relative
order. -/
theorem filter_sortLe {α : Type} (le : α → α → Bool) (p : α → Bool)
    (hequiv : ∀ a b, p a = true → p b = true → le a b = true) (l : List α) :
    (sortLe le l).filter p = l.filter p := by
  induction l with
  | nil => rfl
  | cons x xs ih =>
    cases hx : p x
    · rw [sortLe, filter_insertLe_neg le p x hx, ih]
      simp [List.filter_cons, hx]
    · rw [sortLe, filter_insertLe_pos le p x hx (fun b hb => hequiv x b hx hb), ih]
      simp [List.filter_cons, hx]

/-! The two orders used by the sorts are total preorders. -/

theorem charListLe_cons_iff (a b : Char) (as bs : List Char) :
    charListLe (a :: as) (b :: bs) = true ↔
      (a.toNat < b.toNat ∨ (a.toNat = b.toNat ∧ charListLe as bs = true)) := by
  simp only [charListLe]
  split_ifs with h1 h2
  · simp [h1]
  · refine iff_of_false (by simp) ?_
    rintro (h | ⟨h, _⟩) <;> omega
  · have he : a.toNat = b.toNat := by omega
    simp [he]

theorem charListLe_total (as bs : List Char) :
    charListLe as bs = true ∨ charListLe bs as = true := by
  induction as generalizing bs with
  | nil => left; rfl
  | cons a as ih =>
    cases bs with
    | nil => right; rfl
    | cons b bs =>
      rcases Nat.lt_trichotomy a.toNat b.toNat with h | h | h
      · left; rw [charListLe_cons_iff]; left; exact h
      · rcases ih bs with hr | hr
        · left; rw [charListLe_cons_iff]; right; exact ⟨h, hr⟩
        · right; rw [charListLe_cons_iff]; right; exact ⟨h.symm, hr⟩
      · right; rw [charListLe_cons_iff]; left; exact h

theorem charListLe_trans (as bs cs : List Char)
    (h1 : charListLe as bs = true) (h2 : charListLe bs cs = true) :
    charListLe as cs = true := by
  induction as generalizing bs cs with
  | nil => rfl
  | cons a as ih =>
    cases bs with
    | nil => simp [charListLe] at h1
    | cons b bs =>
      cases cs with
      | nil => simp [charListLe] at h2
      | cons c cs =>
        rw [charListLe_cons_iff] at h1 h2 ⊢
        rcases h1 with h1 | ⟨h1e, h1r⟩ <;> rcases h2 with h2 | ⟨h2e, h2r⟩
        · left; omega
        · left; omega
        · left; omega
        · right; exact ⟨by omega, ih bs cs h1r h2r⟩

theorem strLe_total (a b : String) : strLe a b = true ∨ strLe b a = true :=
  charListLe_total a.data b.data

theorem strLe_trans (a b c : String) (h1 : strLe a b = true)
    (h2 : strLe b c = true) : strLe a c = true :=
  charListLe_trans a.data b.data c.data h1 h2

theorem dueLe_total (asc : Bool) (a b : Task) :
    dueLe asc a b = true ∨ dueLe asc b a = true := by
  cases asc <;> simp [dueLe] <;> omega

theorem dueLe_trans (asc : Bool) (a b c : Task) (h1 : dueLe asc a b = true)
    (h2 : dueLe asc b c = true) : dueLe asc a c = true := by
  cases asc <;> simp [dueLe] at h1 h2 ⊢ <;> omega

/-! Facts about `updateTask` and the duplicate check. -/

theorem updateTask_map_id (tasks : List Task) (i : Int) (n c p : String)
    (d : Int) (ds : String) :
    (updateTask tasks i n c p d ds).map Task.id = tasks.map Task.id := by
  induction tasks with
  | nil => rfl
  | cons t ts ih =>
    by_cases h : t.id = i
    · simp [updateTask, h]
    · simp [updateTask, h, ih]

theorem mem_updateTask (tasks : List Task) (i : Int) (n c p : String) (d : Int)
    (ds : String) (u : Task) (hu : u ∈ updateTask tasks i n c p d ds) :
    u ∈ tasks ∨ u.name = n := by
  induction tasks with
  | nil => simp [updateTask] at hu
  | cons t ts ih =>
    by_cases h : t.id = i
    · simp only [updateTask, if_pos h, List.mem_cons] at hu
      rcases hu with hu | hu
      · right; rw [hu]
      · left; exact List.mem_cons_of_mem t hu
    · simp only [updateTask, if_neg h, List.mem_cons] at hu
      rcases hu with hu | hu
      · left; exact hu ▸ List.mem_cons_self t ts
      · rcases ih hu with h1 | h1
        · left; exact List.mem_cons_of_mem t h1
        · right; exact h1

theorem updateTask_eq_of_forall_ne (tasks : List Task) (i : Int) (n c p : String)
    (d : Int) (ds : String) (h : ∀ t ∈ tasks, t.id ≠ i) :
    updateTask tasks i n c p d ds = tasks := by
  induction tasks with
  | nil => rfl
  | cons t ts ih =>
    have ht : t.id ≠ i := h t (List.mem_cons_self t ts)
    simp [updateTask, ht, ih (fun u hu => h u (List.mem_cons_of_mem t hu))]

theorem not_dup_none (tasks : List Task) (name : String)
    (h : isTaskNameDuplicate tasks name none = false) :
    ∀ t ∈ tasks, jsToLower t.name ≠ jsToLower name := by
  intro t ht heq
  rw [isTaskNameDuplicate, List.any_eq_false] at h
  have := h t ht
  simp [heq] at this

theorem not_dup_some (tasks : List Task) (name : String) (i : Int)
    (h : isTaskNameDuplicate tasks name (some i) = false) :
    ∀ t ∈ tasks, t.id ≠ i → jsToLower t.name ≠ jsToLower name := by
  intro t ht hne heq
  rw [isTaskNameDuplicate, List.any_eq_false] at h
  have := h t ht
  simp [heq, hne] at this

/-! Preservation of the two store invariants by each mutation. -/

theorem namesUnique_addTask (tasks : List Task) (now : Int) (n c p : String)
    (d : Int) (ds : String) (h1 : NamesUnique tasks)
    (h2 : ∀ t ∈ tasks, jsToLower t.name ≠ jsToLower n) :
    NamesUnique (addTask tasks now n c p d ds) := by
  rw [NamesUnique, addTask, List.pairwise_append]
  refine ⟨h1, List.pairwise_singleton _ _, ?_⟩
  intro a ha b hb
  rcases List.mem_singleton.mp hb with rfl
  exact h2 a ha

theorem idsUnique_addTask (tasks : List Task) (now : Int) (n c p : String)
    (d : Int) (ds : String) (h1 : IdsUnique tasks)
    (h2 : ∀ t ∈ tasks, t.id ≠ now) :
    IdsUnique (addTask tasks now n c p d ds) := by
  rw [IdsUnique, addTask, List.map_append, List.nodup_append]
  refine ⟨h1, List.nodup_singleton _, ?_⟩
  intro a ha hb
  rcases List.mem_map.mp ha with ⟨t, ht, rfl⟩
  rcases List.mem_singleton.mp (by simpa using hb) with h
  exact h2 t ht h

theorem namesUnique_removeTask (tasks : List Task) (i : Int)
    (h : NamesUnique tasks) : NamesUnique (removeTask tasks i) :=
  h.sublist (List.filter_sublist tasks)

theorem idsUnique_removeTask (tasks : List Task) (i : Int)
    (h : IdsUnique tasks) : IdsUnique (removeTask tasks i) :=
  h.sublist ((List.filter_sublist tasks).map Task.id)

theorem idsUnique_updateTask (tasks : List Task) (i : Int) (n c p : String)
    (d : Int) (ds : String) (h : IdsUnique tasks) :
    IdsUnique (updateTask tasks i n c p d ds) := by
  rw [IdsUnique, updateTask_map_id]
  exact h

theorem namesUnique_updateTask (i : Int) (n c p : String) (d : Int) (ds : String) :
    ∀ tasks : List Task, NamesUnique tasks → IdsUnique tasks →
      (∀ t ∈ tasks, t.id ≠ i → jsToLower t.name ≠ jsToLower n) →
      NamesUnique (updateTask tasks i n c p d ds) := by
  intro tasks
  induction tasks with
  | nil => intro _ _ _; simp [updateTask, NamesUnique]
  | cons t ts ih =>
    intro h1 h2 h3
    rcases List.pairwise_cons.mp h1 with ⟨ht, hts⟩
    have h2c : (∀ x ∈ ts, ¬x.id = t.id) ∧ (ts.map Task.id).Nodup := by
      simpa [IdsUnique] using h2
    by_cases hid : t.id = i
    · simp only [updateTask, if_pos hid]
      refine List.pairwise_cons.mpr ⟨?_, hts⟩
      intro u hu
      have hune : u.id ≠ i := by
        intro hcon
        exact h2c.1 u hu (by rw [hcon, hid])
      exact fun hcc => h3 u (List.mem_cons_of_mem t hu) hune hcc.symm
    · simp only [updateTask, if_neg hid]
      refine List.pairwise_cons.mpr
        ⟨?_, ih hts h2c.2 (fun u hu hune => h3 u (List.mem_cons_of_mem t hu) hune)⟩
      intro u hu
      rcases mem_updateTask ts i n c p d ds u hu with h4 | h4
      · exact ht u h4
      · rw [h4]
        exact h3 t (List.mem_cons_self t ts) hid

/-! Heap lemmas for the aliasing model. -/

theorem listGetD_set_eq {α : Type} (l : List α) (i : Nat) (a d : α)
    (h : i < l.length) : (l.set i a).getD i d = a := by
  induction l generalizing i with
  | nil => simp at h
  | cons x xs ih =>
    cases i with
    | zero => rfl
    | succ n => simpa using ih n (by simpa using h)

theorem listGetD_set_ne {α : Type} (l : List α) (i j : Nat) (a d : α)
    (h : i ≠ j) : (l.set i a).getD j d = l.getD j d := by
  induction l generalizing i j with
  | nil => rfl
  | cons x xs ih =>
    cases i with
    | zero =>
      cases j with
      | zero => exact absurd rfl h
      | succ m => rfl
    | succ n =>
      cases j with
      | zero => rfl
      | succ m => simpa using ih n m (by omega)

theorem listGetD_append_left {α : Type} (l l2 : List α) (i : Nat) (d : α)
    (h : i < l.length) : (l ++ l2).getD i d = l.getD i d := by
  induction l generalizing i with
  | nil => simp at h
  | cons x xs ih =>
    cases i with
    | zero => rfl
    | succ n => simpa using ih n (by simpa using h)

theorem jsHeap_get_set_eq (h : JsHeap) (r : Nat) (a : List Task)
    (hr : r < h.arrays.length) : (h.set r a).get r = a :=
  listGetD_set_eq h.arrays r a [] hr

theorem jsHeap_get_set_ne (h : JsHeap) (r s : Nat) (a : List Task)
    (hrs : r ≠ s) : (h.set r a).get s = h.get s :=
  listGetD_set_ne h.arrays r s a [] hrs

theorem jsHeap_get_alloc (h : JsHeap) (a : List Task) (s : Nat)
    (hs : s < h.arrays.length) : ((h.alloc a).1).get s = h.get s :=
  listGetD_append_left h.arrays [a] s [] hs

/-! Lower-casing is idempotent, so lowered strings are fixed points. -/

theorem toNat_charOfNat_small (n : Nat) (hn : n < 0xd800) :
    (Char.ofNat n).toNat = n := by
  have hv : n.isValidChar := Or.inl hn
  rw [Char.ofNat, dif_pos hv]
  simp [Char.ofNatAux, Char.toNat, UInt32.ofNat', UInt32.toNat]

theorem charToLower_idem (c : Char) :
    Char.toLower (Char.toLower c) = Char.toLower c := by
  by_cases h : 65 ≤ c.toNat ∧ c.toNat ≤ 90
  · have h1 : Char.toLower c = Char.ofNat (c.toNat + 32) := by
      rw [Char.toLower, if_pos]
      exact ⟨h.1, h.2⟩
    have h2 : (Char.toLower c).toNat = c.toNat + 32 := by
      rw [h1, toNat_charOfNat_small (c.toNat + 32) (by omega)]
    rw [Char.toLower, if_neg]
    rw [h2]
    omega
  · have h1 : Char.toLower c = c := by
      rw [Char.toLower, if_neg]
      intro hc
      exact h ⟨hc.1, hc.2⟩
    rw [h1, h1]

theorem jsToLower_idem (s : String) : jsToLower (jsToLower s) = jsToLower s := by
  have hmap : ∀ l : List Char,
      (l.map Char.toLower).map Char.toLower = l.map Char.toLower := by
    intro l
    simp [List.map_map, Function.comp_def, charToLower_idem]
  exact congrArg String.mk (hmap s.data)

/-- Claim C3: on form submission the name checks run in the order
empty → pattern → duplicate (the description check is its own,
independent error); the first failing check determines the single
reported error, later checks are not consulted, and whenever any check
fails the task collection is left completely unchanged. -/
theorem C3_submit_validation_order (tasks : List Task) (eid : Option Int)
    (now : Int) (name cat prio : String) (due : Int) (desc : String) :
    (name = "" →
      handleFormSubmit tasks eid now name cat prio due desc =
        ⟨some .emptyName, tasks, eid⟩) ∧
    (name ≠ "" → validateTaskName name = false →
      handleFormSubmit tasks eid now name cat prio due desc =
        ⟨some .patternName, tasks, eid⟩) ∧
    (name ≠ "" → validateTaskName name = true →
      isTaskNameDuplicate tasks name eid = true →
      handleFormSubmit tasks eid now name cat prio due desc =
        ⟨some .duplicateName, tasks, eid⟩) ∧
    (name ≠ "" → validateTaskName name = true →
      isTaskNameDuplicate tasks name eid = false →
      desc ≠ "" → validateDescription desc = false →
      handleFormSubmit tasks eid now name cat prio due desc =
        ⟨some .descriptionPattern, tasks, eid⟩) ∧
    ((handleFormSubmit tasks eid now name cat prio due desc).error ≠ none →
      (handleFormSubmit tasks eid now name cat prio due desc).tasks = tasks) := by
  refine ⟨?_, ?_, ?_, ?_, ?_⟩
  · intro h1
    simp [handleFormSubmit, h1]
  · intro h1 h2
    simp [handleFormSubmit, h1, h2]
  · intro h1 h2 h3
    simp [handleFormSubmit, h1, h2, h3]
  · intro h1 h2 h3 h4 h5
    simp [handleFormSubmit, h1, h2, h3, h4, h5]
  · intro h
    rw [handleFormSubmit] at h ⊢
    split_ifs at h ⊢ <;> simp_all

/-- Claim C3 witness at a concrete input: an empty (trimmed) name is
reported as the empty-name error with the store untouched, even though
the later checks would also fail. -/
theorem C3_witness :
    handleFormSubmit [] none 1 "" "c" "low" 0 "@" =
      ⟨some .emptyName, [], none⟩ :=
  (C3_submit_validation_order [] none 1 "" "c" "low" 0 "@").1 rfl

/-- Claim C4 counterexample: the category filter uses `===`, so a stored
category "Work" is NOT selected by the filter value "work" although the
two are case-insensitively equal — the claimed case-insensitive
selection fails. -/
theorem C4_counterexample :
    getFilteredTasks [⟨1, "t", "Work", "low", 0, "", false⟩] "work" true = [] ∧
    jsToLower "Work" = jsToLower "work" ∧ "Work" ≠ "work" := by
  refine ⟨by decide, by decide, by decide⟩

/-- Claim C4 (amended): with the sentinel "all" the filtered-tasks
operation selects every task; with any other filter value it selects
exactly the tasks whose category is equal to the filter value by exact
(case-sensitive) string comparison. -/
theorem C4_filter_membership (tasks : List Task) (f : String) (asc : Bool)
    (t : Task) :
    t ∈ getFilteredTasks tasks f asc ↔
      (t ∈ tasks ∧ (f = "all" ∨ t.category = f)) := by
  rw [getFilteredTasks, mem_sortLe]
  by_cases hf : f = "all"
  · simp [hf]
  · simp [hf, List.mem_filter]

/-- Claim C4 witness at a concrete input: the task is selected exactly
under its verbatim category. -/
theorem C4_witness :
    (⟨1, "t", "Work", "low", 0, "", false⟩ : Task) ∈
      getFilteredTasks [⟨1, "t", "Work", "low", 0, "", false⟩] "Work" true :=
  (C4_filter_membership [⟨1, "t", "Work", "low", 0, "", false⟩] "Work" true
    ⟨1, "t", "Work", "low", 0, "", false⟩).mpr ⟨by decide, Or.inr rfl⟩

/-- Claim C5: the filtered-tasks output is ordered by due date —
non-decreasing for the ascending flag, non-increasing for descending —
and the sort is stable: for every due date value, the subsequence of
tasks with that due date equals the corresponding subsequence of the
store (filtered by category), i.e. ties keep their original relative
order. -/
theorem C5_sort_sorted_stable (tasks : List Task) (f : String) :
    (getFilteredTasks tasks f true).Pairwise
      (fun a b => a.dueDate ≤ b.dueDate) ∧
    (getFilteredTasks tasks f false).Pairwise
      (fun a b => b.dueDate ≤ a.dueDate) ∧
    (∀ (asc : Bool) (k : Int),
      (getFilteredTasks tasks f asc).filter (fun t => t.dueDate == k) =
        tasks.filter
          (fun t => (decide (f = "all") || t.category == f) &&
            t.dueDate == k)) := by
  refine ⟨?_, ?_, ?_⟩
  · exact (pairwise_sortLe (dueLe true) (dueLe_total true) (dueLe_trans true) _).imp
      (fun h => by simpa [dueLe] using h)
  · exact (pairwise_sortLe (dueLe false) (dueLe_total false) (dueLe_trans false) _).imp
      (fun h => by simpa [dueLe] using h)
  · intro asc k
    rw [getFilteredTasks, filter_sortLe]
    · by_cases hf : f = "all"
      · simp only [hf, if_pos rfl]
        apply List.filter_congr
        intro t _
        simp
      · rw [if_neg hf, List.filter_filter]
        apply List.filter_congr
        intro t _
        simp [hf, Bool.and_comm]
    · intro a b ha hb
      have ha' : a.dueDate = k := by simpa using ha
      have hb' : b.dueDate = k := by simpa using hb
      cases asc <;> simp [dueLe, ha', hb']

/-- Claim C6: `getTimeRemaining` returns "Overdue" exactly when
`diff = dueDate - now <= 0`; for positive `diff` it decomposes `diff`
by floor division into whole days, remaining hours (< 24) and remaining
minutes (< 60) and formats them as "{days}d {hours}h {minutes}m",
"{hours}h {minutes}m" or "{minutes}m" according to which leading parts
are zero. -/
theorem C6_time_remaining (dueDate now : Int) :
    (dueDate - now ≤ 0 → getTimeRemaining dueDate now = "Overdue") ∧
    (0 < dueDate - now →
      ((dueDate - now).toNat % 86400000) / 3600000 < 24 ∧
      ((dueDate - now).toNat % 3600000) / 60000 < 60 ∧
      getTimeRemaining dueDate now =
        (if 0 < (dueDate - now).toNat / 86400000 then
          Nat.repr ((dueDate - now).toNat / 86400000) ++ "d " ++
            Nat.repr (((dueDate - now).toNat % 86400000) / 3600000) ++ "h " ++
            Nat.repr (((dueDate - now).toNat % 3600000) / 60000) ++ "m"
        else if 0 < ((dueDate - now).toNat % 86400000) / 3600000 then
          Nat.repr (((dueDate - now).toNat % 86400000) / 3600000) ++ "h " ++
            Nat.repr (((dueDate - now).toNat % 3600000) / 60000) ++ "m"
        else
          Nat.repr (((dueDate - now).toNat % 3600000) / 60000) ++ "m")) := by
  constructor
  · intro h
    rw [getTimeRemaining, if_pos h]
  · intro h
    refine ⟨by omega, by omega, ?_⟩
    rw [getTimeRemaining, if_neg (by omega)]
    norm_num [msPerDay, msPerHour, msPerMinute]

/-- Claim C6 witness at the boundary inputs: zero difference is
"Overdue", one minute is "1m", twenty-five hours is "1d 1h 0m". -/
theorem C6_witness :
    getTimeRemaining 0 0 = "Overdue" ∧ getTimeRemaining 60000 0 = "1m" ∧
    getTimeRemaining 90000000 0 = "1d 1h 0m" := by
  refine ⟨(C6_time_remaining 0 0).1 (by norm_num), ?_, ?_⟩
  · have h := ((C6_time_remaining 60000 0).2 (by norm_num)).2.2
    rw [h]
    rfl
  · have h := ((C6_time_remaining 90000000 0).2 (by norm_num)).2.2
    rw [h]
    rfl

/-- Claim C7 counterexample: `validateDescription` is the test of an
anchored `+`-quantified character class, which does NOT match the empty
string — the claim says the empty string is accepted, the code rejects
it (callers compensate by skipping the check for an empty field). -/
theorem C7_counterexample : validateDescription "" = false := by decide

/-- Claim C7 (amended): `validateDescription text` returns true iff
`text` is non-empty and consists solely of letters, digits, whitespace
and the characters . , ! ? - ' (the empty case is accepted one level up,
where the submission handler skips the check for an empty field). -/
theorem C7_description_iff (s : String) :
    validateDescription s = true ↔
      (s ≠ "" ∧ ∀ c ∈ s.data, descCharOk c = true) := by
  rw [validateDescription, Bool.and_eq_true, List.all_eq_true]
  constructor
  · rintro ⟨h1, h2⟩
    refine ⟨fun hs => ?_, h2⟩
    rw [hs] at h1
    exact absurd h1 (by decide)
  · rintro ⟨h1, h2⟩
    refine ⟨?_, h2⟩
    cases h : s.isEmpty
    · rfl
    · exact absurd ((String.isEmpty_iff s).mp h) h1

/-- Claim C7 witness at a concrete input (Scenario D of the spec):
"Call mom!" is accepted. -/
theorem C7_witness : validateDescription "Call mom!" = true :=
  (C7_description_iff "Call mom!").mpr ⟨by decide, by decide⟩

/-- Claim C1 counterexample: `Date.now()` is not guaranteed distinct
across calls. If two creations observe the same clock reading 7, both
tasks get id 7; an edit session then targets id 7 and renames the first
task to "Y" — the duplicate check excludes BOTH tasks with id 7, so every
check passes, yet the resulting store holds two tasks with
case-insensitively equal names. -/
theorem C1_counterexample :
    clashStep1.error = none ∧ clashStep2.error = none ∧
    (getTaskById clashStep2.tasks 7).isSome = true ∧
    clashStep3.error = none ∧
    clashStep3.tasks.map (fun t => jsToLower t.name) = ["y", "y"] ∧
    ¬ NamesUnique clashStep3.tasks := by
  refine ⟨by decide, by decide, by decide, by decide, by decide, ?_⟩
  rw [NamesUnique]
  decide

/-- Claim C1 (amended): for every sequence of submissions through the
validated path and deletions, in which each creation observes a clock
reading distinct from every id in the store (true whenever clock
readings never repeat) and the session never targets the falsy id 0, no
two tasks in the store have case-insensitively equal names — and ids
stay pairwise distinct. -/
theorem C1_names_unique (tasks : List Task) (h : ValidatedReach tasks) :
    NamesUnique tasks ∧ IdsUnique tasks := by
  induction h with
  | init => exact ⟨List.Pairwise.nil, List.Pairwise.nil⟩
  | submit tasks eid now name cat prio due desc hfresh heid hr ih =>
    rcases ih with ⟨hN, hI⟩
    rw [handleFormSubmit]
    split_ifs with h1 h2 h3 h4 h5
    · exact ⟨hN, hI⟩
    · exact ⟨hN, hI⟩
    · exact ⟨hN, hI⟩
    · exact ⟨hN, hI⟩
    · obtain ⟨i, rfl⟩ : ∃ i, eid = some i := by
        cases eid with
        | none => simp [jsTruthyId] at h5
        | some i => exact ⟨i, rfl⟩
      have hdup : isTaskNameDuplicate tasks name (some i) = false := by
        cases hcase : isTaskNameDuplicate tasks name (some i)
        · rfl
        · exact absurd hcase h3
      exact ⟨namesUnique_updateTask i name cat prio due desc tasks hN hI
               (not_dup_some tasks name i hdup),
             idsUnique_updateTask tasks i name cat prio due desc hI⟩
    · have heq : eid = none := by
        cases eid with
        | none => rfl
        | some i =>
          have hi : i = 0 := by simpa [jsTruthyId] using h5
          exact absurd (by rw [hi]) heid
      subst heq
      have hdup : isTaskNameDuplicate tasks name none = false := by
        cases hcase : isTaskNameDuplicate tasks name none
        · rfl
        · exact absurd hcase h3
      exact ⟨namesUnique_addTask tasks now name cat prio due desc hN
               (not_dup_none tasks name hdup),
             idsUnique_addTask tasks now name cat prio due desc hI hfresh⟩
  | remove tasks taskId hr ih =>
    exact ⟨namesUnique_removeTask tasks taskId ih.1,
           idsUnique_removeTask tasks taskId ih.2⟩

/-- Claim C1 witness: a concrete two-step derivation with distinct clock
readings keeps names unique. -/
theorem C1_witness :
    NamesUnique (handleFormSubmit
      (handleFormSubmit [] none 7 "x" "work" "low" 0 "").tasks
      none 8 "y" "work" "low" 0 "").tasks :=
  (C1_names_unique _
    (ValidatedReach.submit _ none 8 "y" "work" "low" 0 "" (by decide)
      (by decide)
      (ValidatedReach.submit [] none 7 "x" "work" "low" 0 "" (by decide)
        (by decide) ValidatedReach.init))).1

/-- Claim C2 counterexample: two `addTask` calls during the same
millisecond (the clock reads 7 both times) assign the same id to both
tasks, so the id of the second task is not distinct from the id already
in the collection, and ids are no longer unique. -/
theorem C2_counterexample :
    (addTask (addTask [] 7 "a" "c" "low" 0 "") 7 "b" "c" "low" 0 "").map
        Task.id = [7, 7] ∧
    ¬ IdsUnique (addTask (addTask [] 7 "a" "c" "low" 0 "") 7 "b" "c" "low" 0 "") := by
  refine ⟨by decide, ?_⟩
  rw [IdsUnique]
  decide

/-- Claim C2 (amended): `addTask` assigns as id the current clock reading;
provided each call observes a reading that was never produced before
(e.g. a strictly increasing clock), every id in the store appears in the
history of assigned ids and ids remain pairwise distinct across any
sequence of `addTask`/`removeTask` calls — in particular ids of deleted
tasks are never reused. -/
theorem C2_ids_unique (hist : List Int) (tasks : List Task)
    (h : AddRemReach hist tasks) :
    (∀ t ∈ tasks, t.id ∈ hist) ∧ IdsUnique tasks := by
  induction h with
  | init => exact ⟨by simp, List.Pairwise.nil⟩
  | add hist tasks now name cat prio due desc hfresh hr ih =>
    rcases ih with ⟨hsub, hI⟩
    constructor
    · intro t ht
      have ht' : t ∈ tasks ∨
          t = (⟨now, name, cat, prio, due, desc, false⟩ : Task) := by
        simpa [addTask] using ht
      rcases ht' with h1 | h1
      · exact List.mem_append.mpr (Or.inl (hsub t h1))
      · rw [h1]
        exact List.mem_append.mpr (Or.inr (by simp))
    · exact idsUnique_addTask tasks now name cat prio due desc hI
        (fun t ht hc => hfresh (hc ▸ hsub t ht))
  | remove hist tasks taskId hr ih =>
    rcases ih with ⟨hsub, hI⟩
    exact ⟨fun t ht => hsub t (List.mem_of_mem_filter ht),
           idsUnique_removeTask tasks taskId hI⟩

/-- Claim C2 witness: one fresh creation after a deletion keeps ids
unique and inside the assigned history. -/
theorem C2_witness :
    (∀ t ∈ addTask (removeTask (addTask [] 7 "a" "c" "low" 0 "") 7)
        8 "b" "c" "low" 0 "", t.id ∈ [7, 8]) ∧
    IdsUnique (addTask (removeTask (addTask [] 7 "a" "c" "low" 0 "") 7)
        8 "b" "c" "low" 0 "") :=
  C2_ids_unique ([] ++ [7] ++ [8]) _
    (AddRemReach.add _ _ 8 "b" "c" "low" 0 "" (by decide)
      (AddRemReach.remove _ _ 7
        (AddRemReach.add [] [] 7 "a" "c" "low" 0 "" (by decide)
          AddRemReach.init)))

/-- Claim C9: when the session is in edit mode (a truthy editing id) but
no task with that id exists any more, a submission that passes all four
checks leaves the task collection exactly unchanged — nothing is created
and nothing is updated — and resets the session to create mode. -/
theorem C9_edit_missing_task (tasks : List Task) (i : Int) (now : Int)
    (name cat prio : String) (due : Int) (desc : String)
    (htruthy : jsTruthyId (some i) = true)
    (hmissing : getTaskById tasks i = none)
    (hok : (handleFormSubmit tasks (some i) now name cat prio due desc).error
      = none) :
    (handleFormSubmit tasks (some i) now name cat prio due desc).tasks
      = tasks ∧
    (handleFormSubmit tasks (some i) now name cat prio due desc).editingTaskId
      = none := by
  have hall : ∀ t ∈ tasks, t.id ≠ i := by
    intro t ht
    have := List.find?_eq_none.mp hmissing t ht
    simpa using this
  have hc1 : ¬ (name = "") := by
    intro hc
    simp [handleFormSubmit, hc] at hok
  have hc2 : ¬ (validateTaskName name = false) := by
    intro hc
    simp [handleFormSubmit, hc1, hc] at hok
  have hc3 : ¬ (isTaskNameDuplicate tasks name (some i) = true) := by
    intro hc
    simp [handleFormSubmit, hc1, hc2, hc] at hok
  have hc4 : ¬ (desc ≠ "" ∧ validateDescription desc = false) := by
    intro hc
    simp [handleFormSubmit, hc1, hc2, hc3, hc] at hok
  rw [handleFormSubmit, if_neg hc1, if_neg hc2, if_neg hc3, if_neg hc4,
    if_pos htruthy]
  exact ⟨updateTask_eq_of_forall_ne tasks i name cat prio due desc hall, rfl⟩

/-- Claim C9 witness at a concrete input: editing the vanished id 5 over
the empty store changes nothing and returns to create mode. -/
theorem C9_witness :
    (handleFormSubmit [] (some 5) 9 "a" "c" "low" 0 "").tasks = [] ∧
    (handleFormSubmit [] (some 5) 9 "a" "c" "low" 0 "").editingTaskId = none :=
  C9_edit_missing_task [] 5 9 "a" "c" "low" 0 "" (by decide) (by decide)
    (by decide)

/-- Claim C8 counterexample: the second `getAvailableCategories` variant
(script.js lines 767–772) performs no lower-casing, so a task category
"work" yields BOTH "work" and the default "Work" as distinct result
elements that differ only in letter case. -/
theorem C8_counterexample :
    "Work" ∈ getAvailableCategories2
      [⟨1, "t", "work", "low", 0, "", false⟩] ∧
    "work" ∈ getAvailableCategories2
      [⟨1, "t", "work", "low", 0, "", false⟩] ∧
    ("Work" : String) ≠ "work" ∧ jsToLower "Work" = jsToLower "work" :=
  ⟨by decide, by decide, by decide, by decide⟩

/-- Claim C8 (amended, for the first variant): `getAvailableCategories`
returns exactly the lower-cased defaults together with the lower-cased
task categories, lexicographically sorted and without duplicates, and no
two elements of the result differ only in letter case; the second
variant does not lower-case and violates this (see the counterexample). -/
theorem C8_available_categories (tasks : List Task) :
    (∀ s, s ∈ getAvailableCategories tasks ↔
        (s ∈ defaultCategories.map jsToLower ∨
         ∃ t ∈ tasks, s = jsToLower t.category)) ∧
    (getAvailableCategories tasks).Pairwise (fun a b => strLe a b = true) ∧
    (getAvailableCategories tasks).Nodup ∧
    (∀ a ∈ getAvailableCategories tasks, ∀ b ∈ getAvailableCategories tasks,
      jsToLower a = jsToLower b → a = b) := by
  have hmem : ∀ s, s ∈ getAvailableCategories tasks ↔
      (s ∈ defaultCategories.map jsToLower ∨
       ∃ t ∈ tasks, s = jsToLower t.category) := by
    intro s
    simp only [getAvailableCategories]
    rw [mem_sortLe, List.mem_dedup, List.mem_append]
    constructor
    · rintro (h | h)
      · exact Or.inl h
      · rcases List.mem_map.mp h with ⟨t, ht, rfl⟩
        exact Or.inr ⟨t, ht, rfl⟩
    · rintro (h | ⟨t, ht, rfl⟩)
      · exact Or.inl h
      · exact Or.inr (List.mem_map.mpr ⟨t, ht, rfl⟩)
  refine ⟨hmem, ?_, ?_, ?_⟩
  · simp only [getAvailableCategories]
    exact pairwise_sortLe strLe strLe_total strLe_trans _
  · simp only [getAvailableCategories]
    exact ((sortLe_perm strLe _).nodup_iff).mpr (List.nodup_dedup _)
  · intro a ha b hb hab
    have hla : jsToLower a = a := by
      rcases (hmem a).mp ha with h | ⟨t, _, rfl⟩
      · rcases List.mem_map.mp h with ⟨d, _, rfl⟩
        exact jsToLower_idem d
      · exact jsToLower_idem _
    have hlb : jsToLower b = b := by
      rcases (hmem b).mp hb with h | ⟨t, _, rfl⟩
      · rcases List.mem_map.mp h with ⟨d, _, rfl⟩
        exact jsToLower_idem d
      · exact jsToLower_idem _
    rw [← hla, hab, hlb]

/-- Claim C8 witness at a concrete input (Scenario A of the spec): a task
whose category is "WORK" contributes the single element "work", merged
case-insensitively with the default "Work". -/
theorem C8_witness :
    "work" ∈ getAvailableCategories [⟨1, "t", "WORK", "low", 0, "", false⟩] :=
  ((C8_available_categories [⟨1, "t", "WORK", "low", 0, "", false⟩]).1
    "work").mpr
    (Or.inr ⟨⟨1, "t", "WORK", "low", 0, "", false⟩, by decide, by decide⟩)

/-- Claim C10 counterexample: the part_001 `displayTasks` aliases the
store when the selector is "all" (no spread) and sorts it in place, so
the stored task collection is reordered by the call — the claim that the
store keeps its element order for every filter value is false. -/
theorem C10_counterexample :
    ((displayTasksP1 p1Heap 0 "all").1).get 0 ≠ p1Heap.get 0 ∧
    ((displayTasksP1 p1Heap 0 "all").1).get 0 =
      [⟨2, "b", "c", "low", 1, "", false⟩, ⟨1, "a", "c", "low", 2, "", false⟩] ∧
    p1Heap.get 0 =
      [⟨1, "a", "c", "low", 2, "", false⟩, ⟨2, "b", "c", "low", 1, "", false⟩] :=
  ⟨by decide, by decide, by decide⟩

/-- Claim C10 (amended): `getFilteredTasks` (script.js) always sorts a
freshly allocated array, so the store is completely unchanged — in
membership and order — for every filter value; the part_001
`displayTasks` preserves the store's membership (the store after the
call is a permutation of the store before), is the identity on the store
for any concrete category selector, but reorders the store in place when
the selector is "all". -/
theorem C10_frame (h : JsHeap) (storeRef : Nat) (f sel : String) (asc : Bool)
    (hs : storeRef < h.arrays.length) :
    ((getFilteredTasksRef h storeRef f asc).1).get storeRef
      = h.get storeRef ∧
    (((displayTasksP1 h storeRef sel).1).get storeRef).Perm
      (h.get storeRef) ∧
    (sel ≠ "all" →
      ((displayTasksP1 h storeRef sel).1).get storeRef = h.get storeRef) := by
  have hne : h.arrays.length ≠ storeRef := by omega
  have hnall : ∀ s', s' ≠ "all" →
      ((displayTasksP1 h storeRef s').1).get storeRef = h.get storeRef := by
    intro s' hs'
    simp only [displayTasksP1, if_neg hs', JsHeap.alloc]
    rw [jsHeap_get_set_ne _ _ _ _ hne]
    exact jsHeap_get_alloc h _ storeRef hs
  refine ⟨?_, ?_, fun hsel => hnall sel hsel⟩
  · simp only [getFilteredTasksRef, JsHeap.alloc]
    rw [jsHeap_get_set_ne _ _ _ _ hne]
    exact jsHeap_get_alloc h _ storeRef hs
  · by_cases hsel : sel = "all"
    · simp only [displayTasksP1, if_pos hsel]
      rw [jsHeap_get_set_eq h storeRef _ hs]
      exact sortLe_perm _ _
    · rw [hnall sel hsel]

/-- Claim C10 witness at a concrete input: `getFilteredTasks` over the
two-task heap leaves the store bit-for-bit unchanged. -/
theorem C10_witness :
    ((getFilteredTasksRef p1Heap 0 "all" true).1).get 0 = p1Heap.get 0 :=
  (C10_frame p1Heap 0 "all" "c" true (by decide)).1

end TaskManager
